import Mathlib

/-!
# Verification of the Korad KA3xxxP power-supply control programs

A shallow embedding, in Lean 4, of the core logic of the `korad_ka3xxxp_ctrl`
repository: the `Korad3005p` driver class (`korad3005p/korad3005p.py`), the
dictionary-flattening helpers (`korad3005p/util.py`), and the CC/CV charge
loop (`korad_charge.py`).

Conventions of the embedding:

* Python floats are modelled as rationals (`ℚ`); the numeric claims checked
  here (command counts, accumulator structure, threshold comparisons, the
  stale-deadline loop guard) do not depend on binary floating-point rounding.
* Commands written to the serial port are modelled as values (either literal
  command strings, or a `ProtoCmd` tag carrying the numeric argument handed to
  the formatting f-string); a method that writes several commands is modelled
  as the list of commands it writes, in order.
* Python exceptions are modelled with `Except` / explicit error constructors;
  loops that may not terminate are modelled with an explicit fuel parameter,
  where exhausted fuel means "the loop is still running after that many
  iterations".
-/

namespace Korad

/-! ## Transport and simple setpoint commands (`korad3005p/korad3005p.py`) -/

/-- `Korad3005p._cmdbn`: the byte string actually written for a command `c`
is `c` followed by the `\n` terminator (the ASCII encoding step drops
non-ASCII characters; every command built here is already ASCII). -/
def cmdbn (c : String) : String := c ++ "\n"

/-- `Korad3005p._append10`: append `'1'` for a truthy flag, else `'0'`. -/
def append10 (c : String) (t : Bool) : String := c ++ (if t then "1" else "0")

/-- `Korad3005p.enable(on=True)`: writes the single command `OUT1`/`OUT0`.
(The parameter is called `on` in the source; `on` is a reserved word here.) -/
def enable (onFlag : Bool) : List String := [cmdbn (append10 "OUT" onFlag)]

/-- `Korad3005p.disable(off=True)`: defined in the source as
`self.enable(on = not off)`. -/
def disable (off : Bool) : List String := enable (!off)

/-- `Korad3005p.m_store(n)`: writes `SAV{n}` only when `(n > 0) and (n <= 5)`;
otherwise writes nothing.  `n` arrives as a Python `int`, modelled as `ℤ`. -/
def m_store (n : ℤ) : List String :=
  if 0 < n ∧ n ≤ 5 then [cmdbn ("SAV" ++ toString n)] else []

/-- `Korad3005p.m_recall(n)`: writes `RCL{n}` only when `(n > 0) and (n <= 5)`;
otherwise writes nothing. -/
def m_recall (n : ℤ) : List String :=
  if 0 < n ∧ n ≤ 5 then [cmdbn ("RCL" ++ toString n)] else []

/-! ## Status decoding (`Korad3005p.status`) -/

/-- The `status` sub-dictionary built by `Korad3005p.status` from the status
byte (field names and string values exactly as in the source). -/
structure PsuStatus where
  ch0_mode : String
  ch1_mode : String
  tracking : String
  beep : Bool
  lock : Bool
  output : Bool
deriving DecidableEq

/-- The status-byte decoding performed in `Korad3005p.status`: Python
truthiness of `s_byte & mask` is nonzeroness, and
`trk_bits = (s_byte >> 2) & 0x3`. -/
def decodeStatusByte (s_byte : ℕ) : PsuStatus :=
  let trk_bits := (s_byte >>> 2) &&& 0x3
  { ch0_mode := if s_byte &&& 0x1 ≠ 0 then "CV" else "CC"
    ch1_mode := if s_byte &&& 0x2 ≠ 0 then "CV" else "CC"
    tracking := if trk_bits = 0 then "independent"
                else if trk_bits = 0x3 then "parallel" else "series"
    beep := s_byte &&& 0x10 ≠ 0
    lock := s_byte &&& 0x20 ≠ 0
    output := s_byte &&& 0x40 ≠ 0 }

/-- Python exceptions that the modelled code paths can raise. -/
inductive PyExn where
  /-- `IndexError`: raised by `s[0]` when `s` is the empty byte string. -/
  | indexError
  /-- `Exception('Could not get PSU status')`: the explicit raise guarded by
  `if s is None` in `Korad3005p.status`. -/
  | statusNoneExn
deriving DecidableEq

/-- The beginning of `Korad3005p.status`: `s = self._cmdb('STATUS?')`, then
`if s is None: raise Exception('Could not get PSU status')`, then
`s_byte = s[0]`.  The argument is the value returned by
`self.s.readline()` inside `_cmdb` (`none` would be Python `None`; `some bs`
is a byte string). -/
def statusByteRead (s : Option (List ℕ)) : Except PyExn ℕ :=
  match s with
  | none => Except.error PyExn.statusNoneExn
  | some bytes =>
    match bytes with
    | [] => Except.error PyExn.indexError
    | b :: _ => Except.ok b

/-- What `serial.Serial.readline()` returns when the device sends no data
within the configured timeout: the *empty* byte string `b''`, never `None`
(spec §4.1: "If the channel returns no data within the timeout, `query`
yields an empty result"). -/
def readlineOnTimeout : Option (List ℕ) := some []

/-! ## The slew engine (`Korad3005p._slew`) -/

/-- Python `int()` applied to a number: truncation toward zero. -/
def pyInt (q : ℚ) : ℤ := if q < 0 then ⌈q⌉ else ⌊q⌋

/-- The per-step rounding in `_slew`: `v = int(v * 1000 + 0.5) / 1000`. -/
def round3 (v : ℚ) : ℚ := ((pyInt (v * 1000 + 1/2) : ℤ) : ℚ) / 1000

/-- The `for i in range(count)` loop of `_slew`, as the list of values handed
to `fn` (i.e. to `setVolts`/`setCurr`), in order.  Each iteration performs
`v += incr` and then `v = int(v * 1000 + 0.5) / 1000`; note that the rounded
value is assigned back to `v`, so the next iteration continues from it. -/
def slewLoopSends (incr : ℚ) : ℚ → ℕ → List ℚ
  | _, 0 => []
  | v, n + 1 =>
    let v1 := round3 (v + incr)
    v1 :: slewLoopSends incr v1 n

/-- The `fn` dispatch in `_slew` (`'volts' → setVolts`, `'curr' → setCurr`,
anything else raises).  We record which setter was chosen by the command head
it formats (`VSET1` / `ISET1`). -/
def slewFn (what : String) : Option String :=
  if what = "volts" then some "VSET1"
  else if what = "curr" then some "ISET1"
  else none

/-- `Korad3005p._slew(what, end, count, duration)`, as the list of
`(command head, argument value)` pairs handed to the chosen setter.  `start`
is the current device-reported value read from `status()` at entry.  With
`count = 0`, Python raises `ZeroDivisionError` at `incr = (end - start) /
count` (before the `fn` dispatch); with an unknown `what` it raises the `No
function found` exception.  Otherwise the loop sends `count` values and then
`fn(end)` sends the exact target unconditionally.  (`duration` only paces the
`time.sleep(time_step)` calls and does not affect the command list.) -/
def slewSends (what : String) (start e : ℚ) (count : ℕ) : Except String (List (String × ℚ)) :=
  if count = 0 then Except.error "ZeroDivisionError"
  else
    let incr := (e - start) / (count : ℚ)
    match slewFn what with
    | none => Except.error ("No function found. What was " ++ what)
    | some tag =>
      Except.ok (((slewLoopSends incr start count).map (fun v => (tag, v))) ++ [(tag, e)])

/-- The reading of the slew loop asserted by the spec (§4.4/§9): the rounding
is applied only to the transmitted value, and the running accumulator
continues from the unrounded `start + (i+1) * incr`.  This definition follows
the spec's words and is compared against `slewLoopSends`, which follows the
source. -/
def slewLoopSendsSpecRead (incr start : ℚ) (count : ℕ) : List ℚ :=
  (List.range count).map (fun i => round3 (start + ((i : ℚ) + 1) * incr))

/-- The accumulator trajectory actually coded in `_slew`: iterate
`v ↦ round3 (v + incr)`, feeding each rounded value into the next step. -/
def roundedAccum (incr start : ℚ) : ℕ → ℚ
  | 0 => start
  | i + 1 => round3 (roundedAccum incr start i + incr)

/-! ## The charge loop (`KoradLipoCharger.charge` in `korad_charge.py`) -/

/-- Protocol actions issued by the charge program, in the order written to
the serial port.  Setpoint commands carry the value handed to the `:.2f`
format; query commands are the five reads performed by `Korad3005p.status`. -/
inductive ProtoCmd where
  | outC (onFlag : Bool)
  | vsetC (v : ℚ)
  | isetC (i : ℚ)
  | statusQ
  | vsetQ
  | isetQ
  | voutQ
  | ioutQ
deriving DecidableEq

/-- Result of running the charge program for a bounded number of loop
iterations. -/
inductive ChargeResult where
  /-- The `while` loop exited and the trailing `self.k.disable()` ran.
  `finished` is the loop flag at exit: `true` means the current threshold was
  reached (the only way `finished` is set), `false` means the `now < end_time`
  guard failed.  `polls` counts `status()` snapshots taken, `sleeps` counts
  `time.sleep(check_interval)` calls. -/
  | completed (finished : Bool) (polls sleeps : ℕ)
  /-- An exception propagated out of the loop body (nothing after it ran). -/
  | exn (e : PyExn)
  /-- Fuel exhausted: the loop is still running after the given bound. -/
  | fuelOut
deriving DecidableEq

/-- One `self.k.status()` call as seen from the charge loop.  The device is
modelled per poll by `Option ℚ`: `some c` means the status byte arrived and
the four numeric reads followed, with `IOUT1?` reporting measured current `c`
(the only snapshot field the loop's termination test consumes); `none` means
the `STATUS?` read timed out empty, so `s[0]` raises `IndexError` before any
further query is issued. -/
def statusCmds (r : Option ℚ) : List ProtoCmd :=
  match r with
  | none => [ProtoCmd.statusQ]
  | some _ => [ProtoCmd.statusQ, ProtoCmd.vsetQ, ProtoCmd.isetQ, ProtoCmd.voutQ, ProtoCmd.ioutQ]

/-- The `while not finished and now < end_time` loop of
`KoradLipoCharger.charge`, followed by the `self.k.disable()` after it.
Faithful to the source in the one detail that decides the time-limit claims:
`now` is assigned from `time.time()` once, *before* the loop, and is never
reassigned inside it, so the guard compares the same `now` against `end_time`
on every iteration.  `resp i` is the device response to the `i`-th `status()`
call; `acc` is the protocol trace so far; the result pairs the final trace
with how the run ended. -/
def chargeLoop (eoc now endT : ℚ) (resp : ℕ → Option ℚ) :
    Bool → ℕ → ℕ → List ProtoCmd → ℕ → List ProtoCmd × ChargeResult
  | _, _, _, acc, 0 => (acc, ChargeResult.fuelOut)
  | finished, polls, sleeps, acc, fuel + 1 =>
    if finished = false ∧ now < endT then
      match resp polls with
      | none => (acc ++ [ProtoCmd.statusQ], ChargeResult.exn PyExn.indexError)
      | some c =>
        let acc1 := acc ++ statusCmds (some c)
        if c ≤ eoc then
          chargeLoop eoc now endT resp true (polls + 1) sleeps acc1 fuel
        else
          chargeLoop eoc now endT resp false (polls + 1) (sleeps + 1) acc1 fuel
    else (acc ++ [ProtoCmd.outC false], ChargeResult.completed finished polls sleeps)

/-- `KoradLipoCharger.charge` after argument processing: force-disable, set
`cv_voltage` then `cc_current`, enable, record `now = time.time()` and
`end_time = now + max_time * 3600`, settle for one second, then run the poll
loop (and the final disable) via `chargeLoop`. -/
def chargeRun (cv cc eoc maxTime now : ℚ) (resp : ℕ → Option ℚ) (fuel : ℕ) :
    List ProtoCmd × ChargeResult :=
  chargeLoop eoc now (now + maxTime * 3600) resp false 0 0
    [ProtoCmd.outC false, ProtoCmd.vsetC cv, ProtoCmd.isetC cc, ProtoCmd.outC true] fuel

/-- `KoradLipoCharger.graceful_exit` (the SIGINT handler): its one protocol
action is `self.k.disable()` (then it closes the log file and exits). -/
def gracefulExitCmds : List ProtoCmd := [ProtoCmd.outC false]

/-- `cc_current = capacity * rate` as computed in `charge`. -/
def cc_current (capacity rate : ℚ) : ℚ := capacity * rate

/-- `eoc_current = capacity * cutoff` as computed in `charge`. -/
def eoc_current (capacity cutoff : ℚ) : ℚ := capacity * cutoff

/-! ## Dictionary flattening (`korad3005p/util.py`)

The snapshots produced by `Korad3005p.status` are nested Python dictionaries
whose leaves are strings, floats and booleans.  A Python `dict` is modelled
as an association list in insertion order with distinct keys; inserting an
existing key updates the value in place, inserting a new key appends it. -/

/-- A Python value as it occurs in a status snapshot: a leaf (string, float
or bool) or a nested dict. -/
inductive PyVal where
  | str (s : String)
  | num (q : ℚ)
  | boolV (b : Bool)
  | dict (entries : List (String × PyVal))

/-- Insertion of one key into a Python dict: update in place when the key is
present, append otherwise. -/
def dictInsert (l : List (String × PyVal)) (k : String) (v : PyVal) :
    List (String × PyVal) :=
  match l with
  | [] => [(k, v)]
  | (k1, v1) :: rest => if k1 = k then (k1, v) :: rest else (k1, v1) :: dictInsert rest k v

/-- The keys of a dict, in order. -/
def dictKeys (l : List (String × PyVal)) : List String := l.map Prod.fst

/-- Python `d[k]` / key lookup (first — and with distinct keys, only —
binding of `k`). -/
def dictGet (l : List (String × PyVal)) (k : String) : Option PyVal :=
  match l with
  | [] => none
  | (k1, v1) :: rest => if k1 = k then some v1 else dictGet rest k

/-- Building a dict from a stream of key/value pairs, inserting them left to
right: this is what a dict comprehension does with the pairs it generates. -/
def pyDictOfPairs (acc : List (String × PyVal)) : List (String × PyVal) → List (String × PyVal)
  | [] => acc
  | (k, v) :: rest => pyDictOfPairs (dictInsert acc k v) rest

/-- The key join in `flatten_dict`:
`prefix + separator + k if prefix else k` (a Python string is falsy exactly
when empty). -/
def joinKey (pre sep k : String) : String := if pre = "" then k else pre ++ sep ++ k

mutual

/-- `flatten_dict(dd, separator, prefix)`: a non-dict value becomes the
single binding `{prefix: dd}`; a dict becomes the comprehension
`{ (prefix+separator+k if prefix else k) : v for kk, vv in dd.items() for
k, v in flatten_dict(vv, separator, kk).items() }`, i.e. the dict built from
the pair stream `entryPairs` in generation order. -/
def flatten_dict (sep pre : String) : PyVal → List (String × PyVal)
  | .str s => [(pre, .str s)]
  | .num q => [(pre, .num q)]
  | .boolV b => [(pre, .boolV b)]
  | .dict entries => pyDictOfPairs [] (entryPairs sep pre entries)
termination_by v => sizeOf v

/-- The pair stream generated by the comprehension in `flatten_dict`: for
each entry `(kk, vv)` in order, the pairs of `flatten_dict(vv, sep, kk)` with
their keys joined under `pre`. -/
def entryPairs (sep pre : String) : List (String × PyVal) → List (String × PyVal)
  | [] => []
  | (kk, vv) :: rest =>
    (flatten_dict sep kk vv).map (fun kv => (joinKey pre sep kv.1, kv.2)) ++
      entryPairs sep pre rest
termination_by l => sizeOf l

end

/-- The `labels_only=True` branch of `listify_dict`:
`flat = flatten_dict(data)`, then `sorted(flat.keys())`. -/
def listify_labels (d : PyVal) : List String :=
  List.insertionSort (fun a b => a ≤ b) (dictKeys (flatten_dict "_" "" d))

/-- The `labels_only=False` branch of `listify_dict`:
`[flat[k] for k in keys]`.  Every `k` ranges over `flat`'s own keys, so the
lookup always succeeds; the `getD` default is never used. -/
def listify_vals (d : PyVal) : List PyVal :=
  (listify_labels d).map (fun k => (dictGet (flatten_dict "_" "" d) k).getD (PyVal.num 0))

/-! ## Theorems -/

/-- C10: for every boolean `b`, `disable(off=b)` transmits exactly the same
command as `enable(on=not b)`; in particular `disable(False)` enables the
output (it sends `OUT1`), and `disable(True)` sends `OUT0`. -/
theorem disable_is_enable_of_not (b : Bool) :
    disable b = enable (!b) ∧ disable false = ["OUT1\n"] ∧ disable true = ["OUT0\n"] :=
  ⟨rfl, by decide, by decide⟩

/-- C9: for every integer slot `n` with `n ≤ 0` or `n > 5`, `m_store n` and
`m_recall n` transmit nothing and raise nothing; for `n` in `1..=5` each
transmits exactly one `SAV{n}` resp. `RCL{n}` command. -/
theorem preset_range_gate (n : ℤ) :
    ((n ≤ 0 ∨ 5 < n) → m_store n = [] ∧ m_recall n = []) ∧
    (0 < n → n ≤ 5 →
      m_store n = [cmdbn ("SAV" ++ toString n)] ∧
      m_recall n = [cmdbn ("RCL" ++ toString n)]) := by
  constructor
  · intro h
    have h2 : ¬(0 < n ∧ n ≤ 5) := by rcases h with h | h <;> omega
    simp [m_store, m_recall, h2]
  · intro h1 h2
    simp [m_store, m_recall, h1, h2]

/-- Witness for C9: slot 7 is silently ignored, slot 3 sends exactly `SAV3`
resp. `RCL3`. -/
theorem preset_range_gate_witness :
    ((7:ℤ) ≤ 0 ∨ 5 < (7:ℤ)) ∧ m_store 7 = [] ∧ m_recall 7 = [] ∧
    (0:ℤ) < 3 ∧ (3:ℤ) ≤ 5 ∧
    m_store 3 = [cmdbn ("SAV" ++ toString (3:ℤ))] ∧
    m_recall 3 = [cmdbn ("RCL" ++ toString (3:ℤ))] :=
  ⟨Or.inr (by decide),
   ((preset_range_gate 7).1 (Or.inr (by decide))).1,
   ((preset_range_gate 7).1 (Or.inr (by decide))).2,
   by decide, by decide,
   ((preset_range_gate 3).2 (by decide) (by decide)).1,
   ((preset_range_gate 3).2 (by decide) (by decide)).2⟩

/-- C2: for every 8-bit status byte, the decoded snapshot fields match the
bit table: channel-0 mode is `CV` iff bit 0 is set else `CC` (channel 1 with
bit 1); tracking is `independent` iff bits 2–3 are `00`, `parallel` iff they
are `11`, and `series` otherwise; beep, lock and output are bits 4, 5, 6. -/
theorem status_decode_matches_bit_table :
    ∀ b : Fin 256,
      (decodeStatusByte b).ch0_mode = (if (b : ℕ).testBit 0 then "CV" else "CC") ∧
      (decodeStatusByte b).ch1_mode = (if (b : ℕ).testBit 1 then "CV" else "CC") ∧
      ((decodeStatusByte b).tracking = "independent" ↔
        ((b : ℕ).testBit 2 = false ∧ (b : ℕ).testBit 3 = false)) ∧
      ((decodeStatusByte b).tracking = "parallel" ↔
        ((b : ℕ).testBit 2 = true ∧ (b : ℕ).testBit 3 = true)) ∧
      ((decodeStatusByte b).tracking = "series" ↔
        ¬((b : ℕ).testBit 2 = (b : ℕ).testBit 3)) ∧
      (decodeStatusByte b).beep = (b : ℕ).testBit 4 ∧
      (decodeStatusByte b).lock = (b : ℕ).testBit 5 ∧
      (decodeStatusByte b).output = (b : ℕ).testBit 6 := by
  set_option maxRecDepth 40000 in decide

/-- C3 (showing the code bug): when the `STATUS?` read times out, `readline`
returns the empty byte string (not `None`), so `Korad3005p.status` raises an
uncontrolled `IndexError` at `s[0]` — not the controlled
`Exception('Could not get PSU status')` that plays the role of the spec's
`ProtocolError::NoResponse`. -/
theorem status_empty_read_raises_index_error :
    statusByteRead readlineOnTimeout = Except.error PyExn.indexError ∧
    Except.error PyExn.indexError ≠ (Except.error PyExn.statusNoneExn : Except PyExn ℕ) :=
  ⟨rfl, by simp⟩

/-- The slew loop sends exactly one value per iteration. -/
theorem slewLoopSends_length (incr : ℚ) : ∀ (v : ℚ) (n : ℕ), (slewLoopSends incr v n).length = n := by
  intro v n
  induction n generalizing v with
  | zero => rfl
  | succ n ih => simp [slewLoopSends, ih]

/-- C4: for every slew with `count ≥ 1` over a valid parameter (`volts` or
`curr`), exactly `count` intermediate setpoint commands are sent (one per
loop iteration), followed unconditionally by one final corrective command
whose value is exactly `end`, regardless of the rounding applied to the
intermediate values. -/
theorem slew_exact_command_count (what : String) (start e : ℚ) (count : ℕ)
    (hw : what = "volts" ∨ what = "curr") (hc : 1 ≤ count) :
    ∃ tag l, slewSends what start e count = Except.ok (l ++ [(tag, e)]) ∧
      l.length = count ∧ (l ++ [(tag, e)]).length = count + 1 ∧
      (l ++ [(tag, e)]).getLast? = some (tag, e) := by
  have hc0 : ¬count = 0 := by omega
  rcases hw with h | h <;> subst h
  · refine ⟨"VSET1", (slewLoopSends ((e - start) / (count : ℚ)) start count).map
      (fun v => ("VSET1", v)), ?_, ?_, ?_, ?_⟩
    · simp [slewSends, slewFn, hc0]
    · simp [slewLoopSends_length]
    · simp [slewLoopSends_length]
    · simp
  · refine ⟨"ISET1", (slewLoopSends ((e - start) / (count : ℚ)) start count).map
      (fun v => ("ISET1", v)), ?_, ?_, ?_, ?_⟩
    · simp [slewSends, slewFn, hc0]
    · simp [slewLoopSends_length]
    · simp [slewLoopSends_length]
    · simp

/-- Witness for C4: the `count = 5`, `start = 3.00`, `end = 5.00` voltage
slew of the spec's test vector. -/
theorem slew_exact_command_count_witness :
    ("volts" = "volts" ∨ "volts" = "curr") ∧ 1 ≤ 5 ∧
    (∃ tag l, slewSends "volts" 3 5 5 = Except.ok (l ++ [(tag, (5:ℚ))]) ∧
      l.length = 5 ∧ (l ++ [(tag, (5:ℚ))]).length = 5 + 1 ∧
      (l ++ [(tag, (5:ℚ))]).getLast? = some (tag, (5:ℚ))) :=
  ⟨Or.inl rfl, by omega, slew_exact_command_count "volts" 3 5 5 (Or.inl rfl) (by omega)⟩

/-- C5 counterexample: slewing from `0` to `1` in `3` steps, the second value
sent is `0.666` (the rounded `0.333` is fed back into the accumulator and
`0.333 + 1/3` rounds down), whereas under the claim's unrounded accumulator
it would be `round3 (0 + 2·(1/3)) = 0.667`.  So the transmitted stream is not
the one the claim describes. -/
theorem slew_accumulator_feedback_cex :
    slewLoopSends ((1 - 0) / 3) 0 3 ≠ slewLoopSendsSpecRead ((1 - 0) / 3) 0 3 := by
  have h1 : slewLoopSends ((1 - 0) / 3) 0 3 = [333/1000, 666/1000, 999/1000] := by
    norm_num [slewLoopSends, round3, pyInt]
  have h2 : slewLoopSendsSpecRead ((1 - 0) / 3) 0 3 = [333/1000, 667/1000, 1] := by
    norm_num [slewLoopSendsSpecRead, List.range_succ, round3, pyInt]
  rw [h1, h2]
  norm_num

/-- Shifting the starting point of the rounded-accumulator iteration by one
step. -/
theorem roundedAccum_shift (incr v : ℚ) (k : ℕ) :
    roundedAccum incr (round3 (v + incr)) k = roundedAccum incr v (k + 1) := by
  induction k with
  | zero => rfl
  | succ k ih => simp [roundedAccum, ih]

/-- C5 amended: in `_slew` the three-decimal round-half-up rounding is
applied to the running accumulator itself — each iteration assigns
`v = round3 (v + incr)` and transmits that `v` — so per-step rounding error
*is* fed back into subsequent iterations: the `i`-th transmitted value is the
`(i+1)`-fold iterate of `v ↦ round3 (v + incr)` from `start`, not
`round3 (start + (i+1)·incr)`. -/
theorem slew_accumulator_feedback (incr start : ℚ) (count : ℕ) :
    slewLoopSends incr start count =
      (List.range count).map (fun i => roundedAccum incr start (i + 1)) := by
  induction count generalizing start with
  | zero => rfl
  | succ n ih =>
    rw [List.range_succ_eq_map]
    simp only [slewLoopSends, List.map_cons, List.map_map]
    congr 1
    rw [ih (round3 (start + incr))]
    refine List.map_congr_left ?_
    intro i _
    simp [Function.comp, roundedAccum_shift]

/-- The stale-`now` loop guard: as long as the pre-loop `now` was below
`end_time` and every snapshot reports a current above `eoc_current`, the
charge loop runs forever — for every fuel bound it is still running. -/
theorem chargeLoop_stuck (eoc now endT : ℚ) (curr : ℕ → ℚ)
    (hT : now < endT) (hAbove : ∀ i, eoc < curr i) :
    ∀ (fuel polls sleeps : ℕ) (acc : List ProtoCmd),
      (chargeLoop eoc now endT (fun i => some (curr i)) false polls sleeps acc fuel).2
        = ChargeResult.fuelOut := by
  intro fuel
  induction fuel with
  | zero => intro polls sleeps acc; rfl
  | succ fuel ih =>
    intro polls sleeps acc
    have hgt : ¬(curr polls ≤ eoc) := not_le.mpr (hAbove polls)
    simp only [chargeLoop, true_and, if_pos hT, if_neg hgt]
    exact ih (polls + 1) (sleeps + 1) _

/-- C1 (showing the code bug): `charge` reads `time.time()` into `now` once,
before the loop, and never again, so the `now < end_time` half of the loop
guard is decided once and for all.  With a positive `max_time` and a snapshot
stream whose measured current never falls to `eoc_current`, the session never
terminates at all — in particular it never completes by time expiry: for
every iteration bound the loop is still running. -/
theorem charge_never_time_expires (cv cc eoc maxTime now : ℚ) (curr : ℕ → ℚ)
    (hM : 0 < maxTime) (hAbove : ∀ i, eoc < curr i) (fuel : ℕ) :
    (chargeRun cv cc eoc maxTime now (fun i => some (curr i)) fuel).2 = ChargeResult.fuelOut ∧
    ∀ (finished : Bool) (polls sleeps : ℕ),
      (chargeRun cv cc eoc maxTime now (fun i => some (curr i)) fuel).2 ≠
        ChargeResult.completed finished polls sleeps := by
  have h3600 : (0:ℚ) < maxTime * 3600 := by positivity
  have hT : now < now + maxTime * 3600 := by linarith
  have hmain := chargeLoop_stuck eoc now (now + maxTime * 3600) curr hT hAbove fuel 0 0
    [ProtoCmd.outC false, ProtoCmd.vsetC cv, ProtoCmd.isetC cc, ProtoCmd.outC true]
  refine ⟨hmain, ?_⟩
  intro finished polls sleeps
  rw [chargeRun, hmain]
  simp

/-- Witness for C1: a 4-hour plan whose measured current is constantly `1 A`
against `eoc_current = 0` is still running after any number of polls. -/
theorem charge_never_time_expires_witness :
    (0:ℚ) < 4 ∧ (∀ _i : ℕ, (0:ℚ) < 1) ∧
    (chargeRun 4 1 0 4 0 (fun _ => some 1) 1000).2 = ChargeResult.fuelOut :=
  ⟨by norm_num, fun _ => by norm_num,
   (charge_never_time_expires 4 1 0 4 0 (fun _ => 1) (by norm_num) (fun _ => by norm_num)
     1000).1⟩

/-- Stepping the charge loop from poll `polls` to the first
threshold-satisfying poll `N = polls + d`: each earlier poll stays in the
loop (adding one sleep), poll `N` sets `finished` and the next guard check
exits. -/
theorem chargeLoop_threshold_aux (eoc now endT : ℚ) (curr : ℕ → ℚ) (N : ℕ)
    (hT : now < endT) (hbefore : ∀ i, i < N → eoc < curr i) (hN : curr N ≤ eoc) :
    ∀ (d polls sleeps : ℕ) (acc : List ProtoCmd) (fuel : ℕ),
      polls + d = N → d + 2 ≤ fuel →
      (chargeLoop eoc now endT (fun i => some (curr i)) false polls sleeps acc fuel).2
        = ChargeResult.completed true (N + 1) (sleeps + d) := by
  intro d
  induction d with
  | zero =>
    intro polls sleeps acc fuel hp hf
    have hpN : polls = N := by omega
    subst hpN
    obtain ⟨fuel1, rfl⟩ : ∃ f, fuel = f + 1 + 1 := ⟨fuel - 2, by omega⟩
    simp only [chargeLoop, true_and, if_pos hT, if_pos hN]
    simp [chargeLoop, hT]
  | succ d ih =>
    intro polls sleeps acc fuel hp hf
    obtain ⟨fuel1, rfl⟩ : ∃ f, fuel = f + 1 := ⟨fuel - 1, by omega⟩
    have hgt : ¬(curr polls ≤ eoc) := not_le.mpr (hbefore polls (by omega))
    simp only [chargeLoop, true_and, if_pos hT, if_neg hgt]
    have hres := ih (polls + 1) (sleeps + 1)
      (acc ++ statusCmds (some (curr polls))) fuel1 (by omega) (by omega)
    have harith : sleeps + 1 + d = sleeps + (d + 1) := by omega
    rw [harith] at hres
    exact hres

/-- C6: when the snapshot stream first satisfies `measured_current ≤
eoc_current` at poll `N` (polls numbered from 0), the session completes with
the threshold cause (`finished = true`) having taken exactly `N + 1`
snapshots — so it terminated at poll `N` and not before — and having slept
exactly `N` times, i.e. no poll sleep follows the terminating snapshot. -/
theorem charge_threshold_exactly_at_first_low_poll
    (cv cc eoc maxTime now : ℚ) (curr : ℕ → ℚ) (N fuel : ℕ)
    (hM : 0 < maxTime) (hbefore : ∀ i, i < N → eoc < curr i) (hN : curr N ≤ eoc)
    (hf : N + 2 ≤ fuel) :
    (chargeRun cv cc eoc maxTime now (fun i => some (curr i)) fuel).2
      = ChargeResult.completed true (N + 1) N := by
  have h3600 : (0:ℚ) < maxTime * 3600 := by positivity
  have hT : now < now + maxTime * 3600 := by linarith
  have := chargeLoop_threshold_aux eoc now (now + maxTime * 3600) curr N hT hbefore hN
    N 0 0 [ProtoCmd.outC false, ProtoCmd.vsetC cv, ProtoCmd.isetC cc, ProtoCmd.outC true]
    fuel (by omega) hf
  simpa [chargeRun] using this

/-- Witness for C6: current `1 A` for polls 0 and 1, dropping to `0 A` at
poll 2 with `eoc_current = 0`: the session completes at poll 2 with 3
snapshots and 2 sleeps. -/
theorem charge_threshold_witness :
    (0:ℚ) < 4 ∧ (∀ i : ℕ, i < 2 → (0:ℚ) < (if i < 2 then (1:ℚ) else 0)) ∧
    ((if 2 < 2 then (1:ℚ) else 0) ≤ 0) ∧ 2 + 2 ≤ 4 ∧
    (chargeRun 4 1 0 4 0 (fun i => some (if i < 2 then 1 else 0)) 4).2
      = ChargeResult.completed true (2 + 1) 2 :=
  ⟨by norm_num, fun i hi => by simp [hi], by norm_num, by omega,
   charge_threshold_exactly_at_first_low_poll 4 1 0 4 0 (fun i => if i < 2 then 1 else 0) 2 4
     (by norm_num) (fun i hi => by simp [hi]) (by norm_num) (by omega)⟩

/-- C7 counterexample: with a device that stops answering (`STATUS?` times
out at the very first poll), the resulting `IndexError` propagates out of
`charge()` — there is no `try/finally` — so the last protocol action of the
session is the `STATUS?` query, not an output-disable command: the output is
left enabled. -/
theorem charge_exception_skips_disable_cex :
    (chargeRun 4 1 0 4 0 (fun _ => none) 10).1.getLast? = some ProtoCmd.statusQ ∧
    (chargeRun 4 1 0 4 0 (fun _ => none) 10).2 = ChargeResult.exn PyExn.indexError ∧
    some ProtoCmd.statusQ ≠ some (ProtoCmd.outC false) := by
  refine ⟨?_, ?_, by simp⟩ <;> norm_num [chargeRun, chargeLoop]

/-- Any run in which the `while` loop actually exits (either guard half
failing) executes the trailing `self.k.disable()`, making `OUT0` the last
protocol action. -/
theorem chargeLoop_completed_ends_disable (eoc now endT : ℚ) (resp : ℕ → Option ℚ) :
    ∀ (fuel : ℕ) (finished : Bool) (polls sleeps : ℕ) (acc : List ProtoCmd)
      (f2 : Bool) (p s : ℕ),
      (chargeLoop eoc now endT resp finished polls sleeps acc fuel).2
          = ChargeResult.completed f2 p s →
      (chargeLoop eoc now endT resp finished polls sleeps acc fuel).1.getLast?
          = some (ProtoCmd.outC false) := by
  intro fuel
  induction fuel with
  | zero =>
    intro finished polls sleeps acc f2 p s h
    simp [chargeLoop] at h
  | succ fuel ih =>
    intro finished polls sleeps acc f2 p s h
    by_cases hg : finished = false ∧ now < endT
    · simp only [chargeLoop, if_pos hg] at h ⊢
      cases hr : resp polls with
      | none => simp [hr] at h
      | some c =>
        rw [hr] at h
        dsimp only at h ⊢
        by_cases hc : c ≤ eoc
        · rw [if_pos hc] at h ⊢
          exact ih _ _ _ _ _ _ _ h
        · rw [if_neg hc] at h ⊢
          exact ih _ _ _ _ _ _ _ h
    · simp only [chargeLoop, if_neg hg]
      simp

/-- C7 amended: terminations in which the poll loop exits (threshold
completion — and time expiry, were it reachable) issue the output-disable
command as the last protocol action, and the SIGINT handler's protocol
action is exactly an output-disable; but a propagated failure from a
mid-session snapshot (see the counterexample) escapes `charge()` before the
disable, leaving the output enabled on that path. -/
theorem charge_loop_exit_and_sigint_end_disabled
    (cv cc eoc maxTime now : ℚ) (resp : ℕ → Option ℚ) (fuel : ℕ)
    (f2 : Bool) (p s : ℕ)
    (h : (chargeRun cv cc eoc maxTime now resp fuel).2 = ChargeResult.completed f2 p s) :
    (chargeRun cv cc eoc maxTime now resp fuel).1.getLast? = some (ProtoCmd.outC false) ∧
    gracefulExitCmds.getLast? = some (ProtoCmd.outC false) :=
  ⟨chargeLoop_completed_ends_disable _ _ _ _ _ _ _ _ _ _ _ _ h, rfl⟩

/-- Witness for C7: a session whose first poll already satisfies the
threshold exits the loop and ends with `OUT0`. -/
theorem charge_loop_exit_ends_disabled_witness :
    (chargeRun 4 1 1 4 0 (fun _ => some 0) 3).2 = ChargeResult.completed true 1 0 ∧
    (chargeRun 4 1 1 4 0 (fun _ => some 0) 3).1.getLast? = some (ProtoCmd.outC false) ∧
    gracefulExitCmds.getLast? = some (ProtoCmd.outC false) :=
  ⟨by norm_num [chargeRun, chargeLoop, statusCmds],
   (charge_loop_exit_and_sigint_end_disabled 4 1 1 4 0 (fun _ => some 0) 3 true 1 0
     (by norm_num [chargeRun, chargeLoop, statusCmds])).1,
   (charge_loop_exit_and_sigint_end_disabled 4 1 1 4 0 (fun _ => some 0) 3 true 1 0
     (by norm_num [chargeRun, chargeLoop, statusCmds])).2⟩

/-- Membership in the keys after a dict insertion. -/
theorem dictKeys_dictInsert_mem (l : List (String × PyVal)) (k : String) (v : PyVal)
    (k1 : String) :
    k1 ∈ dictKeys (dictInsert l k v) ↔ k1 ∈ dictKeys l ∨ k1 = k := by
  induction l with
  | nil => simp [dictInsert, dictKeys]
  | cons hd rest ih =>
    obtain ⟨k2, v2⟩ := hd
    by_cases h2 : k2 = k
    · subst h2
      simp [dictInsert, dictKeys]
      tauto
    · simp only [dictInsert, if_neg h2, dictKeys, List.map_cons, List.mem_cons] at ih ⊢
      rw [ih]
      tauto

/-- Dict insertion preserves distinctness of keys. -/
theorem dictKeys_dictInsert_nodup (l : List (String × PyVal)) (k : String) (v : PyVal)
    (h : (dictKeys l).Nodup) : (dictKeys (dictInsert l k v)).Nodup := by
  induction l with
  | nil => simp [dictInsert, dictKeys]
  | cons hd rest ih =>
    obtain ⟨k2, v2⟩ := hd
    simp only [dictKeys, List.map_cons, List.nodup_cons] at h
    by_cases h2 : k2 = k
    · subst h2
      simpa [dictInsert, dictKeys] using h
    · simp only [dictInsert, if_neg h2, dictKeys, List.map_cons, List.nodup_cons]
      refine ⟨?_, ih h.2⟩
      intro hmem
      rcases (dictKeys_dictInsert_mem rest k v k2).mp hmem with hin | heq
      · exact h.1 hin
      · exact h2 heq

/-- A dict built by inserting any stream of pairs into a distinct-key dict
has distinct keys. -/
theorem pyDictOfPairs_nodup (pairs : List (String × PyVal)) :
    ∀ acc : List (String × PyVal), (dictKeys acc).Nodup →
      (dictKeys (pyDictOfPairs acc pairs)).Nodup := by
  induction pairs with
  | nil => intro acc h; exact h
  | cons hd rest ih =>
    intro acc h
    obtain ⟨k, v⟩ := hd
    exact ih (dictInsert acc k v) (dictKeys_dictInsert_nodup acc k v h)

/-- The flattened form of any snapshot value has distinct keys. -/
theorem flatten_dict_keys_nodup (sep pre : String) (v : PyVal) :
    (dictKeys (flatten_dict sep pre v)).Nodup := by
  cases v with
  | str s => simp [flatten_dict, dictKeys]
  | num q => simp [flatten_dict, dictKeys]
  | boolV b => simp [flatten_dict, dictKeys]
  | dict entries =>
    rw [flatten_dict]
    exact pyDictOfPairs_nodup _ [] (by simp [dictKeys])

/-- A successful lookup exhibits a binding of the dict. -/
theorem dictGet_eq_some_mem (l : List (String × PyVal)) (k : String) (v : PyVal)
    (h : dictGet l k = some v) : (k, v) ∈ l := by
  induction l with
  | nil => simp [dictGet] at h
  | cons hd rest ih =>
    obtain ⟨k2, v2⟩ := hd
    by_cases h2 : k2 = k
    · subst h2
      simp [dictGet] at h
      subst h
      exact List.mem_cons_self _ _
    · simp only [dictGet, if_neg h2] at h
      exact List.mem_cons_of_mem _ (ih h)

/-- With distinct keys, every binding of the dict is found by lookup. -/
theorem mem_dictGet_of_nodup (l : List (String × PyVal)) (k : String) (v : PyVal)
    (hnd : (dictKeys l).Nodup) (h : (k, v) ∈ l) : dictGet l k = some v := by
  induction l with
  | nil => simp at h
  | cons hd rest ih =>
    obtain ⟨k2, v2⟩ := hd
    simp only [dictKeys, List.map_cons, List.nodup_cons] at hnd
    rcases List.mem_cons.mp h with heq | hmem
    · injection heq with h1 h2
      subst h1
      subst h2
      simp [dictGet]
    · have hne : ¬k2 = k := by
        intro he
        subst he
        exact hnd.1 (List.mem_map_of_mem Prod.fst hmem)
      simp only [dictGet, if_neg hne]
      exact ih hnd.2 hmem

/-- A key of the dict always has a successful lookup. -/
theorem mem_dictKeys_exists (l : List (String × PyVal)) (k : String)
    (h : k ∈ dictKeys l) : ∃ v, dictGet l k = some v := by
  induction l with
  | nil => simp [dictKeys] at h
  | cons hd rest ih =>
    obtain ⟨k2, v2⟩ := hd
    by_cases h2 : k2 = k
    · exact ⟨v2, by simp [dictGet, h2]⟩
    · simp only [dictKeys, List.map_cons, List.mem_cons] at h
      rcases h with heq | hmem
      · exact absurd heq.symm h2
      · rcases ih hmem with ⟨v, hv⟩
        exact ⟨v, by simp [dictGet, if_neg h2, hv]⟩

/-- Zipping a list with its own image under `f` pairs each element with its
image. -/
theorem zip_self_map {α β : Type _} (l : List α) (f : α → β) :
    List.zip l (l.map f) = l.map (fun x => (x, f x)) := by
  induction l with
  | nil => rfl
  | cons hd rest ih => simp only [List.map_cons, List.zip_cons_cons, ih]

/-- C8: for every snapshot value `d`, the header list
(`listify_dict(d, labels_only=True)`) and the row list
(`listify_dict(d, labels_only=False)`) have equal length, and zipping header
with row yields exactly the bindings of `flatten_dict(d)` — the flattened
mapping is reconstructed, with the sorted-by-key ordering keeping header and
row aligned. -/
theorem listify_round_trip (d : PyVal) :
    (listify_labels d).length = (listify_vals d).length ∧
    ∀ (k : String) (v : PyVal),
      (k, v) ∈ List.zip (listify_labels d) (listify_vals d) ↔
        (k, v) ∈ flatten_dict "_" "" d := by
  have hnd : (dictKeys (flatten_dict "_" "" d)).Nodup := flatten_dict_keys_nodup "_" "" d
  have hperm :
      List.Perm
        (List.insertionSort (fun a b : String => a ≤ b) (dictKeys (flatten_dict "_" "" d)))
        (dictKeys (flatten_dict "_" "" d)) :=
    List.perm_insertionSort _ _
  constructor
  · simp [listify_vals]
  · intro k v
    rw [listify_vals, zip_self_map]
    constructor
    · intro hm
      rcases List.mem_map.mp hm with ⟨k1, hk1, heq⟩
      have hkk : k1 = k := congrArg Prod.fst heq
      subst hkk
      have hvv : (dictGet (flatten_dict "_" "" d) k1).getD (PyVal.num 0) = v :=
        congrArg Prod.snd heq
      have hk : k1 ∈ dictKeys (flatten_dict "_" "" d) :=
        hperm.mem_iff.mp (by exact hk1)
      rcases mem_dictKeys_exists _ k1 hk with ⟨v0, hv0⟩
      rw [hv0] at hvv
      simp only [Option.getD_some] at hvv
      subst hvv
      exact dictGet_eq_some_mem _ _ _ hv0
    · intro hm
      have hget := mem_dictGet_of_nodup _ k v hnd hm
      have hk : k ∈ dictKeys (flatten_dict "_" "" d) :=
        List.mem_map_of_mem Prod.fst hm
      have hk1 : k ∈ listify_labels d := by
        rw [listify_labels]
        exact hperm.mem_iff.mpr hk
      refine List.mem_map.mpr ⟨k, hk1, ?_⟩
      simp [hget]

end Korad
